import Mathlib

/-!
Verification of the Eurostat API client core (eurostat-api module).

This file gives a shallow embedding, in Lean 4, of the data-access and
decoding layer of the client: the rate-limited fetch primitive, the
table-of-contents cache and dataset search scoring, the JSON-stat data
decoder and its tabular rendering, the SDMX structure join, and the
geographic code resolver.  Pure computations are translated directly from
the source; the stateful pieces (module-level caches, the rate limiter)
are modelled by explicit state passing with an explicit clock, and the
HTTP layer is modelled by an injected response.  Character-level string
operations (splitting, trimming, lowercasing, substring search) are
implemented here on lists of characters so that every definition is
executable by the kernel; they mirror the behaviour of the corresponding
JavaScript string methods on the character ranges the client uses.
-/

/-! ## Character-level string helpers -/

/-- Lowercasing of a single character as performed by the JavaScript
`toLowerCase` method, restricted to the ASCII and Latin-1 letter ranges
(the ranges appearing in Eurostat codes, titles and geographic names).
Other characters are returned unchanged. -/
def jsToLowerChar (c : Char) : Char :=
  if 65 ≤ c.toNat ∧ c.toNat ≤ 90 then Char.ofNat (c.toNat + 32)
  else if 0xC0 ≤ c.toNat ∧ c.toNat ≤ 0xDE ∧ c.toNat ≠ 0xD7 then Char.ofNat (c.toNat + 32)
  else c

/-- Lowercasing of a string, character by character (JavaScript `toLowerCase`). -/
def jsToLower (s : String) : String :=
  String.mk (s.data.map jsToLowerChar)

/-- Decidable check that the second list is a prefix of the first argument list.
Used to implement substring search. -/
def startsWithChars : List Char → List Char → Bool
  | _, [] => true
  | [], _ :: _ => false
  | a :: as, b :: bs => a == b && startsWithChars as bs

/-- Substring test on character lists: JavaScript `String.prototype.includes`. -/
def listIncludes : List Char → List Char → Bool
  | [], sub => startsWithChars [] sub
  | hay@(_ :: rest), sub => startsWithChars hay sub || listIncludes rest sub

/-- Substring test on strings (JavaScript `includes`). -/
def strIncludes (hay sub : String) : Bool :=
  listIncludes hay.data sub.data

theorem startsWithChars_iff (hay sub : List Char) :
    startsWithChars hay sub = true ↔ sub <+: hay := by
  induction sub generalizing hay with
  | nil => simp [startsWithChars]
  | cons b bs ih =>
    cases hay with
    | nil => simp [startsWithChars]
    | cons a as =>
      simp only [startsWithChars, Bool.and_eq_true, beq_iff_eq, ih]
      constructor
      · rintro ⟨rfl, t, rfl⟩
        exact ⟨t, rfl⟩
      · rintro ⟨t, ht⟩
        injection ht with h1 h2
        exact ⟨h1.symm, t, h2⟩

theorem listIncludes_iff (hay sub : List Char) :
    listIncludes hay sub = true ↔ sub <:+: hay := by
  induction hay with
  | nil =>
    simp [listIncludes, startsWithChars_iff]
  | cons a as ih =>
    simp only [listIncludes, Bool.or_eq_true, startsWithChars_iff, ih]
    constructor
    · rintro (h | h)
      · exact List.IsPrefix.isInfix h
      · exact List.IsInfix.trans h (List.IsSuffix.isInfix (List.suffix_cons a as))
    · intro h
      rcases h with ⟨s, t, hst⟩
      cases s with
      | nil => exact Or.inl ⟨t, by simpa using hst⟩
      | cons x xs =>
        refine Or.inr ?_
        injection hst with h1 h2
        exact ⟨xs, t, h2⟩

/-- Splitting a character list at every character satisfying the predicate.
Pieces between consecutive separators are kept (possibly empty), matching the
behaviour of JavaScript `split` with a single-character or character-class
pattern. -/
def splitByAux (p : Char → Bool) : List Char → List Char → List (List Char)
  | [], acc => [acc.reverse]
  | c :: rest, acc =>
    if p c then acc.reverse :: splitByAux p rest []
    else splitByAux p rest (c :: acc)

/-- Splitting a character list on a predicate, starting with an empty accumulator. -/
def splitBy (p : Char → Bool) (l : List Char) : List (List Char) :=
  splitByAux p l []

/-- Splitting on one separator character (JavaScript `split` with a one-character string). -/
def splitOnChar (sep : Char) (l : List Char) : List (List Char) :=
  splitBy (fun c => c == sep) l

theorem splitByAux_piece (p : Char → Bool) :
    ∀ (l acc : List Char), ∀ piece ∈ splitByAux p l acc, piece <:+: (acc.reverse ++ l) := by
  intro l
  induction l with
  | nil =>
    intro acc piece hp
    simp [splitByAux] at hp
    subst hp
    simp
  | cons c rest ih =>
    intro acc piece hp
    rw [splitByAux] at hp
    by_cases hc : p c
    · rw [if_pos hc] at hp
      rcases List.mem_cons.mp hp with h | h
      · subst h
        exact List.IsPrefix.isInfix (List.prefix_append _ _)
      · have := ih [] piece h
        simp at this
        exact this.trans ⟨acc.reverse ++ [c], [], by simp⟩
    · rw [if_neg hc] at hp
      have := ih (c :: acc) piece hp
      simpa using this

theorem splitBy_piece (p : Char → Bool) (l : List Char) :
    ∀ piece ∈ splitBy p l, piece <:+: l := by
  intro piece hp
  simpa using splitByAux_piece p l [] piece hp

/-- Trimming leading and trailing whitespace (JavaScript `trim`). -/
def trimChars (l : List Char) : List Char :=
  ((l.dropWhile Char.isWhitespace).reverse.dropWhile Char.isWhitespace).reverse

/-! ## Mixed-radix index decoding (formatJsonStatData, lines 376-382)

The data decoder recomputes, for a linear cell index, the per-dimension
category indices by successive modulo and division taken from the last
dimension backward.  The loop below mirrors the source loop: argument `d`
is the number of dimensions still to process, and the index for dimension
`d - 1` is computed from the current remainder before recursing with the
quotient. -/

/-- Product of a list of dimension sizes, as computed by the source with
`reduce((a, b) => a * b, 1)`. -/
def listProd (l : List Nat) : Nat :=
  l.foldl (fun a b => a * b) 1

theorem foldl_mul_eq (l : List Nat) : ∀ a : Nat, l.foldl (fun x y => x * y) a = a * l.prod := by
  induction l with
  | nil => intro a; simp
  | cons b l ih => intro a; simp [ih, Nat.mul_assoc]

theorem listProd_eq_prod (l : List Nat) : listProd l = l.prod := by
  simp [listProd, foldl_mul_eq]

/-- Decoding loop of `formatJsonStatData`: starting from remainder `r`, for
dimension positions `d - 1` down to `0`, emit `r % sizes[pos]` and continue
with `r / sizes[pos]`.  Positions beyond the size vector (which a well-formed
response never produces) read size 1. -/
def decodeLoop (sizes : List Nat) : Nat → Nat → List Nat
  | 0, _ => []
  | d + 1, r => decodeLoop sizes d (r / sizes.getD d 1) ++ [r % sizes.getD d 1]

/-- Per-dimension indices of linear index `i` under the size vector `sizes`,
with the last dimension varying fastest. -/
def decodeIndices (sizes : List Nat) (i : Nat) : List Nat :=
  decodeLoop sizes sizes.length i

/-- Re-encoding of per-dimension indices as described by the specification:
the sum over dimensions of the index times the product of all later sizes. -/
def encodeIndex : List Nat → List Nat → Nat
  | _ :: srest, x :: xrest => x * listProd srest + encodeIndex srest xrest
  | _, _ => 0

theorem decodeLoop_length (sizes : List Nat) : ∀ d r, (decodeLoop sizes d r).length = d := by
  intro d
  induction d with
  | zero => intro r; rfl
  | succ n ih => intro r; simp [decodeLoop, ih]

theorem decodeLoop_append (s : List Nat) (t : Nat) :
    ∀ d r, d ≤ s.length → decodeLoop (s ++ [t]) d r = decodeLoop s d r := by
  intro d
  induction d with
  | zero => intro r _; rfl
  | succ n ih =>
    intro r h
    have hn : n < s.length := Nat.lt_of_succ_le h
    simp only [decodeLoop]
    rw [List.getD_append _ _ _ _ hn, ih _ (Nat.le_of_lt hn)]

theorem listProd_append_singleton (s : List Nat) (t : Nat) :
    listProd (s ++ [t]) = listProd s * t := by
  simp [listProd_eq_prod]

theorem encode_append (t x : Nat) :
    ∀ (s xs : List Nat), xs.length = s.length →
      encodeIndex (s ++ [t]) (xs ++ [x]) = encodeIndex s xs * t + x := by
  intro s
  induction s with
  | nil =>
    intro xs h
    rw [List.length_eq_zero.mp h]
    show encodeIndex [t] [x] = encodeIndex [] [] * t + x
    simp [encodeIndex, listProd]
  | cons a s ih =>
    intro xs h
    cases xs with
    | nil => simp at h
    | cons y ys =>
      have h' : ys.length = s.length := by
        simp only [List.length_cons] at h
        omega
      have hstep : encodeIndex ((a :: s) ++ [t]) ((y :: ys) ++ [x])
          = y * listProd (s ++ [t]) + encodeIndex (s ++ [t]) (ys ++ [x]) := rfl
      have hstep' : encodeIndex (a :: s) (y :: ys) = y * listProd s + encodeIndex s ys := rfl
      rw [hstep, ih ys h', listProd_append_singleton, hstep']
      ring

/-- C2: decoding a linear index below the size product into per-dimension
indices (last dimension fastest) and re-encoding with the specification's
formula returns the original index. -/
theorem c2_index_roundtrip (s : List Nat) :
    ∀ i : Nat, i < listProd s → encodeIndex s (decodeIndices s i) = i := by
  induction s using List.reverseRecOn with
  | nil =>
    intro i hi
    have : i = 0 := Nat.lt_one_iff.mp (by simpa [listProd] using hi)
    subst this
    rfl
  | append_singleton s t ih =>
    intro i hi
    rw [listProd_append_singleton] at hi
    have ht : 0 < t := by
      rcases Nat.eq_zero_or_pos t with h | h
      · subst h; simp at hi
      · exact h
    have hdiv : i / t < listProd s := (Nat.div_lt_iff_lt_mul ht).mpr hi
    have hdec : decodeIndices (s ++ [t]) i = decodeIndices s (i / t) ++ [i % t] := by
      simp only [decodeIndices, List.length_append, List.length_cons, List.length_nil]
      rw [decodeLoop]
      have hget : (s ++ [t]).getD s.length 1 = t := by simp
      rw [hget, decodeLoop_append s t s.length _ (le_refl _)]
    rw [hdec,
      encode_append t (i % t) s _ (by simp [decodeIndices, decodeLoop_length]),
      ih (i / t) hdiv, Nat.mul_comm, Nat.div_add_mod]

/-- Witness for c2_index_roundtrip at the specification's worked example
(sizes geo = 2, time = 3, linear index 5). -/
theorem c2_index_roundtrip_witness :
    encodeIndex [2, 3] (decodeIndices [2, 3] 5) = 5 :=
  c2_index_roundtrip [2, 3] 5 (by decide)

/-! ## JSON-stat 2.0 data decoding (getDatasetData, lines 261-351)

The decoder receives a parsed JSON-stat response (modelled here as a
structured value, since JSON parsing is done by the platform), derives the
ordered category list of every dimension by sorting the category index map
by its numeric values, and densifies the sparse value map into an array of
optional numbers addressed by the mixed-radix linear index.  Numeric data
values carry no arithmetic in this layer and are modelled as integers. -/

structure DataCategory where
  id : String
  label : String
deriving DecidableEq

structure DataDimension where
  id : String
  label : String
  categories : List DataCategory
deriving DecidableEq

structure EurostatDataResult where
  title : String
  source : String
  updated : String
  dimensions : List DataDimension
  values : List (Option Int)
  formattedData : String
deriving DecidableEq

/-- Category block of one dimension of a JSON-stat response: the index map
from category code to numeric position and the label map from category code
to display label.  JSON objects cannot repeat keys, so both are association
lists with distinct keys looked up by first match. -/
structure JsonStatCategory where
  index : List (String × Nat)
  label : List (String × String)
deriving DecidableEq

structure JsonStatDimension where
  label : Option String
  category : JsonStatCategory
deriving DecidableEq

/-- The fields of a parsed JSON-stat 2.0 response that the decoder reads.
Absent optional fields are `none`; absent object fields are empty lists,
matching the source's fallbacks to empty objects. -/
structure JsonStatResponse where
  label : Option String
  source : Option String
  updated : Option String
  id : List String
  size : List Nat
  dimension : List (String × JsonStatDimension)
  value : List (Nat × Int)
deriving DecidableEq

/-- JavaScript `a || b` on a possibly absent string: the fallback is used
when the value is absent or empty (both are falsy). -/
def jsOrString (o : Option String) (dflt : String) : String :=
  match o with
  | some s => if s = "" then dflt else s
  | none => dflt

def emptyJsonStatDimension : JsonStatDimension :=
  { label := none, category := { index := [], label := [] } }

/-- Ascending comparison on the numeric position of a category index entry,
the comparator of the source's `sort((a, b) => a[1] - b[1])`.  JavaScript
sort is specified stable, so a stable sort with this comparator models it. -/
def catIdxLE (a b : String × Nat) : Prop := a.2 ≤ b.2

instance : DecidableRel catIdxLE := fun a b => Nat.decLe a.2 b.2

/-- Decoding of one dimension: sort the category index map by its numeric
values to recover positional order, then pair each code with its label,
falling back to the code itself. -/
def decodeDimension (resp : JsonStatResponse) (dimId : String) : DataDimension :=
  let dim := (resp.dimension.lookup dimId).getD emptyJsonStatDimension
  let sortedEntries := List.insertionSort catIdxLE dim.category.index
  { id := dimId
    label := jsOrString dim.label dimId
    categories := sortedEntries.map
      (fun p => { id := p.1, label := jsOrString (dim.category.label.lookup p.1) p.1 }) }

/-- Densification loop: cell `i` of the dense array is the sparse map's
entry for key `i` when present and absent otherwise. -/
def densifiedValues (value : List (Nat × Int)) (totalSize : Nat) : List (Option Int) :=
  (List.range totalSize).map (fun i => value.lookup i)

/-! ## Tabular rendering (formatJsonStatData, lines 356-393) -/

def defaultDataDimension : DataDimension := { id := "", label := "", categories := [] }

/-- Label of the category at position `idx` of dimension `d`, with the
source's bracketed-index fallback for an out-of-range position. -/
def categoryLabelAt (dims : List DataDimension) (d idx : Nat) : String :=
  match (dims.getD d defaultDataDimension).categories[idx]? with
  | some cat => cat.label
  | none => "[" ++ toString idx ++ "]"

/-- One rendered row: the per-dimension category labels of the decoded
indices of cell `i`, joined with the value. -/
def rowLine (dims : List DataDimension) (sizes : List Nat) (i : Nat) (v : Int) : String :=
  let indices := decodeLoop sizes dims.length i
  String.intercalate " | " (indices.mapIdx (fun d idx => categoryLabelAt dims d idx))
    ++ " | " ++ toString v

/-- Rendering loop of `formatJsonStatData`: walk the value positions from
`i` upward, skip absent values, and emit one row per present value. -/
def dataRowsFrom (dims : List DataDimension) (sizes : List Nat) :
    Nat → List (Option Int) → List String
  | _, [] => []
  | i, none :: rest => dataRowsFrom dims sizes (i + 1) rest
  | i, some v :: rest => rowLine dims sizes i v :: dataRowsFrom dims sizes (i + 1) rest

def dataRows (dims : List DataDimension) (sizes : List Nat)
    (values : List (Option Int)) : List String :=
  dataRowsFrom dims sizes 0 values

def tableHeader (dims : List DataDimension) : String :=
  String.intercalate " | " (dims.map (fun d => d.label)) ++ " | Value"

def headerRule (dims : List DataDimension) : String :=
  String.mk (List.replicate (tableHeader dims).length '-')

def formatJsonStatData (dims : List DataDimension) (sizes : List Nat)
    (values : List (Option Int)) : String :=
  if dims.length = 0 ∨ values.length = 0 then "No data available."
  else String.intercalate "\n" (tableHeader dims :: headerRule dims :: dataRows dims sizes values)

/-- Decoding of a successful JSON-stat response into the result record
returned by `getDatasetData`. -/
def decodeDatasetData (datasetCode : String) (resp : JsonStatResponse) : EurostatDataResult :=
  let dimensions := resp.id.map (decodeDimension resp)
  let values := densifiedValues resp.value (listProd resp.size)
  { title := jsOrString resp.label datasetCode
    source := jsOrString resp.source "Eurostat"
    updated := jsOrString resp.updated ""
    dimensions := dimensions
    values := values
    formattedData := formatJsonStatData dimensions resp.size values }

/-- Well-formedness of a JSON-stat response: the declared size vector agrees
with the cardinality of each dimension's category index map, as the JSON-stat
format guarantees.  Stated as an executable equality. -/
def sizesMatch (resp : JsonStatResponse) : Bool :=
  resp.size == resp.id.map (fun dimId =>
    (((resp.dimension.lookup dimId).getD emptyJsonStatDimension).category.index).length)

theorem decodeDimension_categories_length (resp : JsonStatResponse) (dimId : String) :
    (decodeDimension resp dimId).categories.length
      = (((resp.dimension.lookup dimId).getD emptyJsonStatDimension).category.index).length := by
  simp [decodeDimension, (List.perm_insertionSort catIdxLE _).length_eq]

/-- C1: for every decoded response whose size vector matches its category
index maps, the dense value array has length equal to the product of the
category counts of the decoded dimensions, and the cell at every position
`i` is exactly the sparse value map's entry for key `i` (absent when the
key is missing, never zero). -/
theorem c1_densification (datasetCode : String) (resp : JsonStatResponse)
    (hwf : sizesMatch resp = true) :
    (decodeDatasetData datasetCode resp).values.length
        = ((decodeDatasetData datasetCode resp).dimensions.map
            (fun d => d.categories.length)).prod
    ∧ ∀ i : Nat, ∀ h : i < (decodeDatasetData datasetCode resp).values.length,
        (decodeDatasetData datasetCode resp).values.get ⟨i, h⟩ = resp.value.lookup i := by
  have hsz : resp.size = resp.id.map (fun dimId =>
      (((resp.dimension.lookup dimId).getD emptyJsonStatDimension).category.index).length) :=
    eq_of_beq hwf
  constructor
  · show (densifiedValues resp.value (listProd resp.size)).length = _
    have h1 : (densifiedValues resp.value (listProd resp.size)).length = listProd resp.size := by
      simp [densifiedValues]
    have h2 : ((resp.id.map (decodeDimension resp)).map (fun d => d.categories.length))
        = resp.size := by
      rw [List.map_map]
      conv_rhs => rw [hsz]
      simp [Function.comp, decodeDimension_categories_length]
    show (densifiedValues resp.value (listProd resp.size)).length
        = ((resp.id.map (decodeDimension resp)).map (fun d => d.categories.length)).prod
    rw [h1, h2, listProd_eq_prod]
  · intro i h
    show (densifiedValues resp.value (listProd resp.size)).get ⟨i, h⟩ = resp.value.lookup i
    simp [densifiedValues, List.get_eq_getElem]

theorem dataRowsFrom_eq_filterMap (dims : List DataDimension) (sizes : List Nat) :
    ∀ (values : List (Option Int)) (n : Nat),
      dataRowsFrom dims sizes n values
        = (values.enumFrom n).filterMap
            (fun p => p.2.map (fun v => rowLine dims sizes p.1 v)) := by
  intro values
  induction values with
  | nil => intro n; rfl
  | cons a rest ih =>
    intro n
    cases a with
    | none => simp [dataRowsFrom, List.enumFrom_cons, List.filterMap_cons, Option.map, ih]
    | some v => simp [dataRowsFrom, List.enumFrom_cons, List.filterMap_cons, Option.map, ih]

theorem dataRowsFrom_length (dims : List DataDimension) (sizes : List Nat) :
    ∀ (values : List (Option Int)) (n : Nat),
      (dataRowsFrom dims sizes n values).length = values.countP Option.isSome := by
  intro values
  induction values with
  | nil => intro n; rfl
  | cons a rest ih =>
    intro n
    cases a with
    | none => simp [dataRowsFrom, List.countP_cons, ih]
    | some v => simp [dataRowsFrom, List.countP_cons, ih]

/-- C3: the rendering loop emits exactly one row for every position holding
a present value, in position order, and no row at all for a position holding
an absent value; the row list is not truncated, and for a non-empty table the
formatted output is exactly the header, the rule, and all those rows. -/
theorem c3_rendering_omission (dims : List DataDimension) (sizes : List Nat)
    (values : List (Option Int)) :
    dataRows dims sizes values
        = values.enum.filterMap (fun p => p.2.map (fun v => rowLine dims sizes p.1 v))
    ∧ (dataRows dims sizes values).length = values.countP Option.isSome
    ∧ (dims ≠ [] → values ≠ [] →
        formatJsonStatData dims sizes values
          = String.intercalate "\n"
              (tableHeader dims :: headerRule dims :: dataRows dims sizes values)) := by
  refine ⟨?_, ?_, ?_⟩
  · rw [dataRows, dataRowsFrom_eq_filterMap, List.enum]
  · rw [dataRows, dataRowsFrom_length]
  · intro h1 h2
    rw [formatJsonStatData, if_neg]
    simp [List.length_eq_zero, h1, h2]

/-- Worked example from the specification: dimensions geo (DE, FR) by
time (2020, 2021, 2022). -/
def demoDims : List DataDimension :=
  [{ id := "geo", label := "Geopolitical entity",
     categories := [{ id := "DE", label := "Germany" }, { id := "FR", label := "France" }] },
   { id := "time", label := "Time",
     categories := [{ id := "2020", label := "2020" }, { id := "2021", label := "2021" },
                    { id := "2022", label := "2022" }] }]

/-- Dense value array of the specification's worked example. -/
def demoValues : List (Option Int) := [some 100, none, none, none, none, some 142]

/-- Witness for c3_rendering_omission at the specification's worked example. -/
theorem c3_rendering_omission_witness :
    formatJsonStatData demoDims [2, 3] demoValues
      = String.intercalate "\n"
          (tableHeader demoDims :: headerRule demoDims :: dataRows demoDims [2, 3] demoValues) :=
  (c3_rendering_omission demoDims [2, 3] demoValues).2.2 (by decide) (by decide)

/-- JSON-stat response of the specification's worked example: sparse values
at linear keys 0 and 5 only. -/
def demoDataResponse : JsonStatResponse :=
  { label := some "Demo dataset"
    source := some "Eurostat"
    updated := some "2024-01-01"
    id := ["geo", "time"]
    size := [2, 3]
    dimension :=
      [("geo", { label := some "Geopolitical entity",
                 category := { index := [("DE", 0), ("FR", 1)],
                               label := [("DE", "Germany"), ("FR", "France")] } }),
       ("time", { label := some "Time",
                  category := { index := [("2020", 0), ("2021", 1), ("2022", 2)],
                                label := [] } })]
    value := [(0, 100), (5, 142)] }

/-- Witness for c1_densification at the specification's worked example. -/
theorem c1_densification_witness :
    (decodeDatasetData "DEMO" demoDataResponse).values.length
        = ((decodeDatasetData "DEMO" demoDataResponse).dimensions.map
            (fun d => d.categories.length)).prod :=
  (c1_densification "DEMO" demoDataResponse (by decide)).1

/-! ## Table-of-contents search scoring (searchDatasets, lines 100-125)

The query is lowercased and split on whitespace into terms; every catalog
entry is scored by the number of terms occurring in its lowercased
"title code" text, with a bonus of 100 for a case-insensitive exact code
match; zero-scoring entries are dropped, the rest sorted by descending
score with the JavaScript engine's stable sort, and the result truncated.
A stable insertion sort models the ECMAScript-mandated stable sort. -/

structure TocEntry where
  code : String
  title : String
  type : String
  lastUpdate : Option String
  dataStart : Option String
  dataEnd : Option String
  values : Option String
deriving DecidableEq

/-- Lowercased whitespace-split terms of a query, empty pieces dropped,
as produced by `query.toLowerCase().split(/\s+/).filter(Boolean)`. -/
def queryTerms (query : String) : List (List Char) :=
  (splitBy Char.isWhitespace (jsToLower query).data).filter (fun t => !t.isEmpty)

/-- Score of one catalog entry against a query: the number of query terms
occurring as substrings of the lowercased title-and-code text, plus 100
when the entry code equals the whole query case-insensitively. -/
def scoreEntry (query : String) (e : TocEntry) : Nat :=
  let base := (queryTerms query).countP
      (fun t => listIncludes (jsToLower (e.title ++ " " ++ e.code)).data t)
  if jsToLower e.code = jsToLower query then base + 100 else base

/-- Scored catalog entries with positive score, in catalog order. -/
def scoredToc (toc : List TocEntry) (query : String) : List (TocEntry × Nat) :=
  (toc.map (fun e => (e, scoreEntry query e))).filter (fun p => decide (0 < p.2))

/-- Descending comparison on stored scores, the order corresponding to the
source comparator `(a, b) => b.score - a.score`. -/
def scoreGE (a b : TocEntry × Nat) : Prop := b.2 ≤ a.2

instance : DecidableRel scoreGE :=
  fun a b => inferInstanceAs (Decidable (b.2 ≤ a.2))

instance : IsTotal (TocEntry × Nat) scoreGE :=
  ⟨fun a b => Nat.le_total b.2 a.2⟩

instance : IsTrans (TocEntry × Nat) scoreGE :=
  ⟨fun _ _ _ h1 h2 => le_trans h2 h1⟩

/-- Positive-scoring entries sorted stably by descending score. -/
def searchSorted (toc : List TocEntry) (query : String) : List (TocEntry × Nat) :=
  List.insertionSort scoreGE (scoredToc toc query)

/-- Search over an already fetched catalog: score, drop zero scores, sort
descending (stable), truncate to the limit, and return the entries. -/
def searchDatasets (toc : List TocEntry) (query : String) (limit : Nat) : List TocEntry :=
  ((searchSorted toc query).take limit).map Prod.fst

theorem queryTerms_piece (query : String) :
    ∀ t ∈ queryTerms query, t <:+: (jsToLower query).data := by
  intro t ht
  rw [queryTerms, List.mem_filter] at ht
  exact splitBy_piece _ _ t ht.1

theorem searchable_data (e : TocEntry) :
    (jsToLower (e.title ++ " " ++ e.code)).data
      = (jsToLower (e.title ++ " ")).data ++ (jsToLower e.code).data := by
  simp [jsToLower, String.data_append]

theorem scoreEntry_exact (query : String) (e : TocEntry)
    (h : jsToLower e.code = jsToLower query) :
    scoreEntry query e = (queryTerms query).length + 100 := by
  simp only [scoreEntry, if_pos h]
  congr 1
  rw [List.countP_eq_length]
  intro t ht
  have h1 : t <:+: (jsToLower e.code).data := by
    rw [h]
    exact queryTerms_piece query t ht
  have h2 : (jsToLower e.code).data <:+: (jsToLower (e.title ++ " " ++ e.code)).data := by
    rw [searchable_data]
    exact ⟨(jsToLower (e.title ++ " ")).data, [], by simp⟩
  exact (listIncludes_iff _ _).mpr (h1.trans h2)

theorem scoreEntry_nonexact (query : String) (e : TocEntry)
    (h : jsToLower e.code ≠ jsToLower query) :
    scoreEntry query e ≤ (queryTerms query).length := by
  simp only [scoreEntry, if_neg h]
  exact List.countP_le_length _

theorem scoredToc_snd (toc : List TocEntry) (query : String) :
    ∀ p ∈ scoredToc toc query, p.2 = scoreEntry query p.1 ∧ 0 < p.2 ∧ p.1 ∈ toc := by
  intro p hp
  rw [scoredToc, List.mem_filter] at hp
  obtain ⟨hmem, hpos⟩ := hp
  rw [List.mem_map] at hmem
  obtain ⟨e, he, rfl⟩ := hmem
  exact ⟨rfl, by simpa using hpos, he⟩

theorem searchSorted_mem (toc : List TocEntry) (query : String) :
    ∀ p, p ∈ searchSorted toc query ↔ p ∈ scoredToc toc query := by
  intro p
  exact (List.perm_insertionSort scoreGE (scoredToc toc query)).mem_iff

theorem filter_orderedInsert_score (s : Nat) (a : TocEntry × Nat) :
    ∀ l : List (TocEntry × Nat),
      (List.orderedInsert scoreGE a l).filter (fun p => p.2 == s)
        = if a.2 = s then a :: l.filter (fun p => p.2 == s)
          else l.filter (fun p => p.2 == s) := by
  intro l
  induction l with
  | nil =>
    by_cases h : a.2 = s <;>
      simp [List.orderedInsert, List.filter_cons, List.filter_nil, h]
  | cons b l ih =>
    rw [List.orderedInsert]
    by_cases hab : scoreGE a b
    · rw [if_pos hab]
      by_cases h : a.2 = s <;> simp [List.filter_cons, h]
    · rw [if_neg hab]
      have hlt : a.2 < b.2 := Nat.lt_of_not_le hab
      rw [List.filter_cons, List.filter_cons, ih]
      by_cases h : a.2 = s
      · have hbs : ¬ b.2 = s := by omega
        simp [h, hbs]
      · simp [h]

theorem filter_insertionSort_score (s : Nat) :
    ∀ l : List (TocEntry × Nat),
      (List.insertionSort scoreGE l).filter (fun p => p.2 == s)
        = l.filter (fun p => p.2 == s) := by
  intro l
  induction l with
  | nil => rfl
  | cons a l ih =>
    rw [List.insertionSort, filter_orderedInsert_score, ih, List.filter_cons]
    by_cases h : a.2 = s <;> simp [h]

theorem searchSorted_snd (toc : List TocEntry) (query : String) :
    ∀ p ∈ searchSorted toc query, p.2 = scoreEntry query p.1 ∧ 0 < p.2 ∧ p.1 ∈ toc := by
  intro p hp
  exact scoredToc_snd toc query p ((searchSorted_mem toc query p).mp hp)

/-- C4: the search returns only positive-scoring catalog entries; before
truncation it contains every positive-scoring entry; the result is the
truncation to the limit of the stably sorted positive entries, sorted by
descending score; entries of equal score keep catalog order (the per-score
slices of the sorted list equal those of the catalog-ordered scored list);
and an entry whose code equals the query case-insensitively always precedes
every entry without such an exact match. -/
theorem c4_search_scoring (toc : List TocEntry) (query : String) (limit : Nat) :
    (∀ e ∈ searchDatasets toc query limit, e ∈ toc ∧ 0 < scoreEntry query e)
    ∧ (∀ e ∈ toc, 0 < scoreEntry query e → e ∈ (searchSorted toc query).map Prod.fst)
    ∧ ((searchSorted toc query).map Prod.fst).Perm ((scoredToc toc query).map Prod.fst)
    ∧ searchDatasets toc query limit = ((searchSorted toc query).map Prod.fst).take limit
    ∧ (searchDatasets toc query limit).length = min limit (scoredToc toc query).length
    ∧ List.Sorted (fun e f => scoreEntry query f ≤ scoreEntry query e)
        (searchDatasets toc query limit)
    ∧ (∀ s : Nat, (searchSorted toc query).filter (fun p => p.2 == s)
        = (scoredToc toc query).filter (fun p => p.2 == s))
    ∧ (∀ i j : Nat, ∀ hi : i < (searchDatasets toc query limit).length,
        ∀ hj : j < (searchDatasets toc query limit).length,
        jsToLower ((searchDatasets toc query limit).get ⟨i, hi⟩).code = jsToLower query →
        jsToLower ((searchDatasets toc query limit).get ⟨j, hj⟩).code ≠ jsToLower query →
        i < j) := by
  have hsortedPairs : List.Sorted scoreGE (searchSorted toc query) :=
    List.sorted_insertionSort scoreGE (scoredToc toc query)
  have htakeMem : ∀ p ∈ (searchSorted toc query).take limit, p ∈ searchSorted toc query :=
    fun p hp => (List.take_sublist limit _).mem hp
  have hsortedRes : List.Sorted (fun e f => scoreEntry query f ≤ scoreEntry query e)
      (searchDatasets toc query limit) := by
    rw [searchDatasets, List.Sorted, List.pairwise_map]
    have hpair : ((searchSorted toc query).take limit).Pairwise scoreGE :=
      hsortedPairs.sublist (List.take_sublist limit _)
    refine hpair.imp_of_mem ?_
    intro p q hp hq hpq
    have hps := (searchSorted_snd toc query p (htakeMem p hp)).1
    have hqs := (searchSorted_snd toc query q (htakeMem q hq)).1
    rw [← hps, ← hqs]
    exact hpq
  refine ⟨?_, ?_, ?_, ?_, ?_, hsortedRes, ?_, ?_⟩
  · intro e he
    rw [searchDatasets, List.mem_map] at he
    obtain ⟨p, hp, rfl⟩ := he
    have := searchSorted_snd toc query p (htakeMem p hp)
    exact ⟨this.2.2, this.1 ▸ this.2.1⟩
  · intro e he hpos
    rw [List.mem_map]
    refine ⟨(e, scoreEntry query e), ?_, rfl⟩
    rw [searchSorted_mem, scoredToc, List.mem_filter]
    exact ⟨List.mem_map.mpr ⟨e, he, rfl⟩, by simpa using hpos⟩
  · exact (List.perm_insertionSort scoreGE (scoredToc toc query)).map Prod.fst
  · rw [searchDatasets, List.map_take]
  · rw [searchDatasets, List.length_map, List.length_take]
    have hlen : (searchSorted toc query).length = (scoredToc toc query).length :=
      (List.perm_insertionSort scoreGE (scoredToc toc query)).length_eq
    rw [hlen]
  · exact fun s => filter_insertionSort_score s (scoredToc toc query)
  · intro i j hi hj hex hnon
    rcases Nat.lt_trichotomy i j with h | h | h
    · exact h
    · exact absurd (h ▸ hex) hnon
    · exfalso
      have hrel := hsortedRes.rel_get_of_lt (show (⟨j, hj⟩ : Fin _) < ⟨i, hi⟩ from h)
      have h1 := scoreEntry_exact query _ hex
      have h2 := scoreEntry_nonexact query _ hnon
      omega

def demoToc : List TocEntry :=
  [{ code := "NAMA_10_GDP", title := "GDP and main components", type := "dataset",
     lastUpdate := none, dataStart := none, dataEnd := none, values := none },
   { code := "TEC00001", title := "Gross domestic product gdp at market prices",
     type := "dataset", lastUpdate := none, dataStart := none, dataEnd := none,
     values := none }]

/-- Witness for c4_search_scoring: the exact-code entry of the demo catalog
is retained by the search for its own code. -/
theorem c4_search_scoring_witness :
    { code := "NAMA_10_GDP", title := "GDP and main components", type := "dataset",
      lastUpdate := none, dataStart := none, dataEnd := none,
      values := none : TocEntry } ∈ (searchSorted demoToc "nama_10_gdp").map Prod.fst :=
  (c4_search_scoring demoToc "nama_10_gdp" 20).2.1 _ (by decide) (by decide)

/-! ## Geographic code resolution (resolveGeoCode and fuzzyMatch, lines 445-514) -/

/-- Check that a string starts with the given text, modelling the JavaScript
`startsWith` method. -/
def strStartsWith (s p : String) : Bool :=
  startsWithChars s.data p.data

/-- Level classification of a geographic code from its textual shape
(lines 476-481): two letters are a country, lengths three to five are the
NUTS levels, and longer codes beginning with the recognized aggregate
markers EU or EA are aggregates; anything else is other. -/
def geoLevel (code : String) : String :=
  if code.length = 2 then "country"
  else if code.length = 3 then "nuts1"
  else if code.length = 4 then "nuts2"
  else if code.length = 5 then "nuts3"
  else if strStartsWith code "EU" || strStartsWith code "EA" then "aggregate"
  else "other"

/-- C5: the level derived for a geographic code is determined by its length
(2 country, 3 nuts1, 4 nuts2, 5 nuts3), then by the recognized aggregate
markers, then falls back to other; with the specification's examples. -/
theorem c5_geo_level (code : String) :
    (code.length = 2 → geoLevel code = "country")
    ∧ (code.length = 3 → geoLevel code = "nuts1")
    ∧ (code.length = 4 → geoLevel code = "nuts2")
    ∧ (code.length = 5 → geoLevel code = "nuts3")
    ∧ (code.length ≠ 2 → code.length ≠ 3 → code.length ≠ 4 → code.length ≠ 5 →
        (strStartsWith code "EU" || strStartsWith code "EA") = true →
        geoLevel code = "aggregate")
    ∧ (code.length ≠ 2 → code.length ≠ 3 → code.length ≠ 4 → code.length ≠ 5 →
        (strStartsWith code "EU" || strStartsWith code "EA") = false →
        geoLevel code = "other")
    ∧ geoLevel "DE" = "country" ∧ geoLevel "DE2" = "nuts1" ∧ geoLevel "DE21" = "nuts2"
    ∧ geoLevel "DE212" = "nuts3" ∧ geoLevel "EU27_2020" = "aggregate" := by
  refine ⟨fun h => by simp [geoLevel, h], fun h => by simp [geoLevel, h],
    fun h => by simp [geoLevel, h], fun h => by simp [geoLevel, h],
    fun h2 h3 h4 h5 hagg => by simp [geoLevel, h2, h3, h4, h5, hagg],
    fun h2 h3 h4 h5 hagg => by simp [geoLevel, h2, h3, h4, h5, hagg],
    by decide, by decide, by decide, by decide, by decide⟩

/-- Witness for c5_geo_level: the aggregate branch at the specification's
example code. -/
theorem c5_geo_level_witness : geoLevel "EU27_2020" = "aggregate" :=
  (c5_geo_level "EU27_2020").2.2.2.2.1 (by decide) (by decide) (by decide) (by decide)
    (by decide)

structure GeoCode where
  code : String
  name : String
  level : String
deriving DecidableEq

/-- Canonical NFD decomposition restricted to the lowercase Latin-1 letters
with diacritics (the letters jsToLowerChar can produce on the ranges the
client handles); every other character decomposes to itself.  This models
the behaviour of the JavaScript normalize with form NFD on those
characters. -/
def nfdChar (c : Char) : List Char :=
  match c.toNat with
  | 0xE0 => ['a', Char.ofNat 0x300]
  | 0xE1 => ['a', Char.ofNat 0x301]
  | 0xE2 => ['a', Char.ofNat 0x302]
  | 0xE3 => ['a', Char.ofNat 0x303]
  | 0xE4 => ['a', Char.ofNat 0x308]
  | 0xE5 => ['a', Char.ofNat 0x30A]
  | 0xE7 => ['c', Char.ofNat 0x327]
  | 0xE8 => ['e', Char.ofNat 0x300]
  | 0xE9 => ['e', Char.ofNat 0x301]
  | 0xEA => ['e', Char.ofNat 0x302]
  | 0xEB => ['e', Char.ofNat 0x308]
  | 0xEC => ['i', Char.ofNat 0x300]
  | 0xED => ['i', Char.ofNat 0x301]
  | 0xEE => ['i', Char.ofNat 0x302]
  | 0xEF => ['i', Char.ofNat 0x308]
  | 0xF1 => ['n', Char.ofNat 0x303]
  | 0xF2 => ['o', Char.ofNat 0x300]
  | 0xF3 => ['o', Char.ofNat 0x301]
  | 0xF4 => ['o', Char.ofNat 0x302]
  | 0xF5 => ['o', Char.ofNat 0x303]
  | 0xF6 => ['o', Char.ofNat 0x308]
  | 0xF9 => ['u', Char.ofNat 0x300]
  | 0xFA => ['u', Char.ofNat 0x301]
  | 0xFB => ['u', Char.ofNat 0x302]
  | 0xFC => ['u', Char.ofNat 0x308]
  | 0xFD => ['y', Char.ofNat 0x301]
  | 0xFF => ['y', Char.ofNat 0x308]
  | _ => [c]

/-- Combining diacritical marks stripped by the source's replace of the
range U+0300 to U+036F. -/
def isCombiningMark (c : Char) : Bool :=
  decide (0x300 ≤ c.toNat ∧ c.toNat ≤ 0x36F)

/-- Normalization used by fuzzyMatch (lines 508-512): lowercase, decompose
to base letters plus combining marks, then strip the combining marks. -/
def fuzzyNormalize (s : String) : String :=
  String.mk (((s.data.map jsToLowerChar).flatMap nfdChar).filter (fun c => !isCombiningMark c))

/-- Accent-insensitive substring match (fuzzyMatch, lines 507-514). -/
def fuzzyMatch (text query : String) : Bool :=
  listIncludes (fuzzyNormalize text).data (fuzzyNormalize query).data

/-- Match predicate of resolveGeoCode (lines 492-498): exact
case-insensitive code equality, case-insensitive name substring, or
accent-insensitive name substring. -/
def geoMatches (query : String) (gc : GeoCode) : Bool :=
  (jsToLower gc.code == jsToLower query)
    || strIncludes (jsToLower gc.name) (jsToLower query)
    || fuzzyMatch gc.name query

/-- Filter-and-truncate step of resolveGeoCode over the cached list
(lines 491-500). -/
def geoFilter (cached : List GeoCode) (query : String) : List GeoCode :=
  (cached.filter (geoMatches query)).take 20

/-- Shared cache time-to-live of one hour (also used by the geo cache). -/
def TOC_CACHE_DURATION_MS : Nat := 60 * 60 * 1000

structure GeoCacheState where
  cachedGeoCodes : Option (List GeoCode)
  geoCodesCachedAt : Nat
deriving DecidableEq

/-- Upstream result of the GEO codelist fetch: on success, the (code, name)
pairs extracted from the codelist document (the regex extraction of lines
470-475 is upstream of this model); otherwise the HTTP status. -/
inductive GeoResponse where
  | ok (pairs : List (String × String))
  | failed (status : Nat)
deriving DecidableEq

/-- Refresh condition of the geo cache (line 461): nothing cached yet, or
the snapshot is strictly older than the TTL. -/
def geoNeedsRefresh (st : GeoCacheState) (now : Nat) : Bool :=
  st.cachedGeoCodes.isNone || decide (TOC_CACHE_DURATION_MS < now - st.geoCodesCachedAt)

/-- Stateful model of resolveGeoCode (lines 458-501): refresh the cached
codelist when needed, deriving each level from the code shape; a failed
fetch raises an error and leaves the state untouched; then filter the
cached list against the query and truncate to 20. -/
def resolveGeoCode (st : GeoCacheState) (now : Nat) (resp : GeoResponse)
    (query : String) : Except String (List GeoCode) × GeoCacheState :=
  if geoNeedsRefresh st now then
    match resp with
    | .failed status =>
      (.error ("Failed to fetch GEO codelist: " ++ toString status), st)
    | .ok pairs =>
      let codes := pairs.map
        (fun p => { code := p.1, name := p.2, level := geoLevel p.1 : GeoCode })
      (.ok (geoFilter codes query),
       { cachedGeoCodes := some codes, geoCodesCachedAt := now })
  else
    (.ok (geoFilter (st.cachedGeoCodes.getD []) query), st)

/-- C6: the geo filter keeps the cached order (it yields a sublist of the
cache), returns at most 20 entries, every returned entry satisfies one of
the three match conditions, the result is exactly the matching entries
whenever at most 20 match, and a fresh cache makes resolveGeoCode return
precisely this filter of the cached list. -/
theorem c6_geo_matching (cached : List GeoCode) (query : String) :
    (geoFilter cached query).Sublist cached
    ∧ (geoFilter cached query).length ≤ 20
    ∧ (∀ gc ∈ geoFilter cached query,
        jsToLower gc.code = jsToLower query
        ∨ strIncludes (jsToLower gc.name) (jsToLower query) = true
        ∨ fuzzyMatch gc.name query = true)
    ∧ ((cached.filter (geoMatches query)).length ≤ 20 →
        geoFilter cached query = cached.filter (geoMatches query))
    ∧ (∀ st : GeoCacheState, ∀ now : Nat, ∀ resp : GeoResponse,
        st.cachedGeoCodes = some cached → geoNeedsRefresh st now = false →
        resolveGeoCode st now resp query = (.ok (geoFilter cached query), st)) := by
  refine ⟨?_, ?_, ?_, ?_, ?_⟩
  · exact (List.take_sublist 20 _).trans (List.filter_sublist cached)
  · exact List.length_take_le 20 _
  · intro gc hgc
    have hmem : gc ∈ cached.filter (geoMatches query) :=
      (List.take_sublist 20 _).mem hgc
    have hm := (List.mem_filter.mp hmem).2
    simpa [geoMatches, Bool.or_eq_true, beq_iff_eq, or_assoc] using hm
  · intro hle
    exact List.take_of_length_le hle
  · intro st now resp hcache hfresh
    simp [resolveGeoCode, hfresh, hcache]

/-- Cached geo list of the diacritic example. -/
def demoGeoList : List GeoCode :=
  [{ code := "AT", name := "Österreich", level := "country" },
   { code := "DE", name := "Deutschland", level := "country" }]

/-- Witness for c6_geo_matching: the entry named with a diacritic is matched
by the plain-letter query through one of the three match conditions. -/
theorem c6_geo_matching_witness :
    jsToLower (GeoCode.mk "AT" "Österreich" "country").code = jsToLower "Osterreich"
    ∨ strIncludes (jsToLower (GeoCode.mk "AT" "Österreich" "country").name)
        (jsToLower "Osterreich") = true
    ∨ fuzzyMatch (GeoCode.mk "AT" "Österreich" "country").name "Osterreich" = true :=
  (c6_geo_matching demoGeoList "Osterreich").2.2.1 _ (by decide)

/-! ## Dataset structure join (getDatasetStructure, lines 209-235)

The regex extraction of dimension declarations, codelists and concept names
from the metadata document is upstream of this model; its outputs are the
dimension-to-codelist pairs in declaration order, the codelists with their
codes in document order, the concept display names, and the optionally
detected time dimension.  The join below mirrors the loop that builds the
output dimension list. -/

structure SdmxCode where
  id : String
  name : String
deriving DecidableEq

structure DatasetDimension where
  id : String
  name : String
  values : List SdmxCode
deriving DecidableEq

/-- Placeholder code attached to the synthetic time dimension. -/
def timeHintCode : SdmxCode :=
  { id := "hint",
    name := "Use sinceTimePeriod/untilTimePeriod or specific years like 2020, 2021" }

/-- Join step of getDatasetStructure: one output dimension per extracted
dimension declaration, in order, resolving the codelist (empty when the
referenced codelist is missing) truncated silently to 200 codes and the
concept display name (falling back to the dimension id); when a time
dimension was detected, a synthetic dimension with the single placeholder
code is appended last. -/
def buildDimensions (dimCodelist : List (String × String))
    (codelists : List (String × List SdmxCode))
    (concepts : List (String × String))
    (timeDim : Option String) : List DatasetDimension :=
  let base := dimCodelist.map (fun p =>
    { id := p.1
      name := (concepts.lookup p.1).getD p.1
      values := ((codelists.lookup p.2).getD []).take 200 : DatasetDimension })
  match timeDim with
  | some tid => base ++ [{ id := tid, name := "Time period", values := [timeHintCode] }]
  | none => base

/-- C7: every dimension built by the structure join carries at most 200
codes; the output identifier sequence is the declared dimension order
followed by the detected time dimension when present; and with a detected
time dimension the last output element is exactly the synthetic dimension
with the single placeholder code. -/
theorem c7_structure_join (dimCodelist : List (String × String))
    (codelists : List (String × List SdmxCode))
    (concepts : List (String × String)) (timeDim : Option String) :
    (∀ d ∈ buildDimensions dimCodelist codelists concepts timeDim,
        d.values.length ≤ 200)
    ∧ (buildDimensions dimCodelist codelists concepts timeDim).map DatasetDimension.id
        = dimCodelist.map Prod.fst ++ timeDim.toList
    ∧ (∀ tid, timeDim = some tid →
        (buildDimensions dimCodelist codelists concepts timeDim).getLast?
          = some { id := tid, name := "Time period", values := [timeHintCode] }) := by
  refine ⟨?_, ?_, ?_⟩
  · intro d hd
    cases timeDim with
    | none =>
      rw [buildDimensions] at hd
      simp only [List.mem_map] at hd
      obtain ⟨p, _, rfl⟩ := hd
      exact List.length_take_le 200 _
    | some tid =>
      rw [buildDimensions] at hd
      simp only [List.mem_append, List.mem_map, List.mem_singleton] at hd
      rcases hd with ⟨p, _, rfl⟩ | rfl
      · exact List.length_take_le 200 _
      · simp [timeHintCode]
  · cases timeDim with
    | none => simp [buildDimensions]
    | some tid => simp [buildDimensions]
  · intro tid htid
    subst htid
    rw [buildDimensions]
    exact List.getLast?_concat _

/-- Witness for c7_structure_join: the time dimension is appended last on a
concrete extracted structure. -/
theorem c7_structure_join_witness :
    (buildDimensions [("geo", "CL_GEO")]
        [("CL_GEO", [{ id := "DE", name := "Germany" }])] [] (some "TIME_PERIOD")).getLast?
      = some { id := "TIME_PERIOD", name := "Time period", values := [timeHintCode] } :=
  (c7_structure_join [("geo", "CL_GEO")]
    [("CL_GEO", [{ id := "DE", name := "Germany" }])] [] (some "TIME_PERIOD")).2.2
    "TIME_PERIOD" rfl

/-! ## Rate-limited fetch (rateLimitedFetch, lines 16-34)

The module tracks the instant of the last dispatched request.  A caller
arriving less than the minimum interval after it sleeps for the remainder
before dispatching.  The sequential model below threads the timestamp
explicitly and uses an exact clock: the instant read after the sleep is the
arrival instant plus the sleep duration. -/

def MIN_REQUEST_INTERVAL_MS : Nat := 350

/-- Dispatch instant of one call arriving at `now` with last-request
timestamp `last`; this instant becomes the new timestamp. -/
def rateLimitedDispatch (last now : Nat) : Nat :=
  if now - last < MIN_REQUEST_INTERVAL_MS then
    now + (MIN_REQUEST_INTERVAL_MS - (now - last))
  else now

/-- Dispatch instants of a sequence of calls with the given arrival
instants, threading the shared timestamp. -/
def dispatchTrace (last : Nat) : List Nat → List Nat
  | [] => []
  | now :: rest =>
    rateLimitedDispatch last now :: dispatchTrace (rateLimitedDispatch last now) rest

/-- Arrival instants are valid for the sequential model when every call
reads a clock at least as late as the timestamp recorded by the previous
call (the clock is monotone and calls do not overlap). -/
def validArrivals (last : Nat) : List Nat → Bool
  | [] => true
  | now :: rest => decide (last ≤ now) && validArrivals (rateLimitedDispatch last now) rest

theorem rateLimitedDispatch_ge (last now : Nat) (h : last ≤ now) :
    last + MIN_REQUEST_INTERVAL_MS ≤ rateLimitedDispatch last now := by
  rw [rateLimitedDispatch]
  split_ifs with h1 <;> omega

theorem dispatchTrace_chain (nows : List Nat) :
    ∀ last, validArrivals last nows = true →
      List.Chain' (fun a b => a + MIN_REQUEST_INTERVAL_MS ≤ b) (dispatchTrace last nows) := by
  induction nows with
  | nil => intro last _; exact List.chain'_nil
  | cons now rest ih =>
    intro last h
    rw [validArrivals, Bool.and_eq_true, decide_eq_true_eq] at h
    obtain ⟨hle, hrest⟩ := h
    rw [dispatchTrace, List.chain'_cons']
    refine ⟨?_, ih _ hrest⟩
    intro b hb
    cases rest with
    | nil => simp [dispatchTrace] at hb
    | cons n2 r2 =>
      rw [dispatchTrace] at hb
      simp only [List.head?_cons, Option.mem_def, Option.some.injEq] at hb
      subst hb
      rw [validArrivals, Bool.and_eq_true, decide_eq_true_eq] at hrest
      exact rateLimitedDispatch_ge _ _ hrest.1

/-- C8: in the sequential model with an exact clock, a caller arriving
within the minimum interval of the last dispatch is suspended until exactly
the interval has elapsed before the timestamp advances; every dispatch
happens at least the interval after the previous timestamp; and the
dispatch instants of any valid call sequence are pairwise at least 350
milliseconds apart. -/
theorem c8_rate_limiting (last : Nat) (nows : List Nat)
    (h : validArrivals last nows = true) :
    List.Chain' (fun a b => a + MIN_REQUEST_INTERVAL_MS ≤ b) (dispatchTrace last nows)
    ∧ (∀ now, last ≤ now → now - last < MIN_REQUEST_INTERVAL_MS →
        rateLimitedDispatch last now = last + MIN_REQUEST_INTERVAL_MS)
    ∧ (∀ now, last ≤ now → last + MIN_REQUEST_INTERVAL_MS ≤ rateLimitedDispatch last now) := by
  refine ⟨dispatchTrace_chain nows last h, ?_, ?_⟩
  · intro now h1 h2
    rw [rateLimitedDispatch, if_pos h2]
    omega
  · intro now h1
    exact rateLimitedDispatch_ge _ _ h1

/-- Witness for c8_rate_limiting on a concrete valid call sequence. -/
theorem c8_rate_limiting_witness :
    List.Chain' (fun a b => a + MIN_REQUEST_INTERVAL_MS ≤ b) (dispatchTrace 0 [0, 400, 700]) :=
  (c8_rate_limiting 0 [0, 400, 700] (by decide)).1

/-! ## Table-of-contents cache (fetchToc, lines 50-95) and its interaction
with search (searchDatasets, lines 100-125)

The module caches the parsed catalog with the fetch instant; within one
hour the snapshot is reused without a fetch.  The HTTP layer is modelled by
a function from the requested URL to a response, so the language parameter
reaches the upstream only through the URL. -/

def CATALOGUE_URL : String :=
  "https://ec.europa.eu/eurostat/api/dissemination/catalogue"

/-- Catalog URL for a language, as built on line 63. -/
def tocUrl (lang : String) : String :=
  CATALOGUE_URL ++ "/toc/txt?lang=" ++ lang

inductive HttpResponse where
  | ok (body : String)
  | failed (status : Nat) (statusText : String)
deriving DecidableEq

structure TocCacheState where
  cachedToc : Option (List TocEntry)
  tocCachedAt : Nat
deriving DecidableEq

/-- JavaScript `s || undefined` on a string column: empty becomes absent. -/
def optField (s : String) : Option String :=
  if s = "" then none else some s

/-- Parse of one catalog line (lines 75-90): trim, skip blank lines, split
on tabs, skip lines with fewer than two columns, and read the fixed column
positions with empty optional columns mapped to absent. -/
def parseTocLine (line : List Char) : Option TocEntry :=
  let l := trimChars line
  if l.isEmpty then none
  else
    let parts := (splitOnChar '\t' l).map (fun cs => String.mk cs)
    if 2 ≤ parts.length then
      some { title := parts.getD 0 ""
             code := parts.getD 1 ""
             type := parts.getD 2 ""
             lastUpdate := optField (parts.getD 3 "")
             dataStart := optField (parts.getD 5 "")
             dataEnd := optField (parts.getD 6 "")
             values := optField (parts.getD 7 "") }
    else none

/-- Parse of the tab-separated catalog body: drop the header line, parse
the rest, skipping blank and malformed lines. -/
def parseTocBody (body : String) : List TocEntry :=
  ((splitOnChar '\n' body.data).drop 1).filterMap parseTocLine

/-- Refresh step of fetchToc (lines 63-94): fetch the catalog for the
language, fail without touching the cache on a non-2xx response, otherwise
parse and cache the new snapshot at the current instant. -/
def fetchTocRefresh (st : TocCacheState) (now : Nat) (lang : String)
    (server : String → HttpResponse) : Except String (List TocEntry) × TocCacheState :=
  match server (tocUrl lang) with
  | .failed status statusText =>
    (.error ("Failed to fetch TOC: " ++ toString status ++ " " ++ statusText), st)
  | .ok body =>
    let entries := parseTocBody body
    (.ok entries, { cachedToc := some entries, tocCachedAt := now })

/-- Stateful model of fetchToc (lines 57-95): return the cached catalog
when one exists and is younger than the TTL, otherwise refresh. -/
def fetchToc (st : TocCacheState) (now : Nat) (lang : String)
    (server : String → HttpResponse) : Except String (List TocEntry) × TocCacheState :=
  match st.cachedToc with
  | some toc =>
    if now - st.tocCachedAt < TOC_CACHE_DURATION_MS then (.ok toc, st)
    else fetchTocRefresh st now lang server
  | none => fetchTocRefresh st now lang server

/-- Stateful model of searchDatasets: ensure a fresh catalog, then apply
the pure scoring pipeline to it. -/
def searchDatasetsM (st : TocCacheState) (now : Nat) (query : String) (lang : String)
    (limit : Nat) (server : String → HttpResponse) :
    Except String (List TocEntry) × TocCacheState :=
  match fetchToc st now lang server with
  | (.error e, st1) => (.error e, st1)
  | (.ok toc, st1) => (.ok (searchDatasets toc query limit), st1)

/-- C9: when a refresh is attempted (no snapshot, or a stale snapshot) and
the upstream fetch fails, the catalog fetch and the geo resolver both raise
a descriptive error and return the cache state exactly as it was: no
partial snapshot is ever cached and the previous snapshot, if any, stays in
place. -/
theorem c9_failed_refresh_preserves_cache :
    (∀ (st : TocCacheState) (now : Nat) (lang : String)
        (server : String → HttpResponse) (status : Nat) (statusText : String),
      server (tocUrl lang) = HttpResponse.failed status statusText →
      (st.cachedToc = none ∨ TOC_CACHE_DURATION_MS ≤ now - st.tocCachedAt) →
      fetchToc st now lang server
        = (.error ("Failed to fetch TOC: " ++ toString status ++ " " ++ statusText), st))
    ∧ (∀ (st : GeoCacheState) (now status : Nat) (query : String),
      geoNeedsRefresh st now = true →
      resolveGeoCode st now (GeoResponse.failed status) query
        = (.error ("Failed to fetch GEO codelist: " ++ toString status), st)) := by
  constructor
  · intro st now lang server status statusText hs hstale
    cases hc : st.cachedToc with
    | none => simp [fetchToc, hc, fetchTocRefresh, hs]
    | some toc =>
      have hstale2 : TOC_CACHE_DURATION_MS ≤ now - st.tocCachedAt := by
        rcases hstale with h | h
        · rw [hc] at h; cases h
        · exact h
      have hnlt : ¬ now - st.tocCachedAt < TOC_CACHE_DURATION_MS := Nat.not_lt.mpr hstale2
      simp [fetchToc, hc, hnlt, fetchTocRefresh, hs]
  · intro st now status query h
    simp [resolveGeoCode, h]

/-- Witness for c9_failed_refresh_preserves_cache: a failed first fetch on
an empty cache reports the error and leaves the empty cache in place. -/
theorem c9_failed_refresh_preserves_cache_witness :
    fetchToc { cachedToc := none, tocCachedAt := 0 } 0 "en"
        (fun _ => HttpResponse.failed 503 "Service Unavailable")
      = (.error ("Failed to fetch TOC: " ++ toString 503 ++ " " ++ "Service Unavailable"),
         { cachedToc := none, tocCachedAt := 0 }) :=
  c9_failed_refresh_preserves_cache.1 { cachedToc := none, tocCachedAt := 0 } 0 "en"
    (fun _ => HttpResponse.failed 503 "Service Unavailable") 503 "Service Unavailable"
    rfl (Or.inl rfl)

/-- C10: the catalog cache key does not include the language.  After a
first search on an empty cache has fetched and cached the catalog body
served for its language, a second search within the TTL returns the scored
result of that same catalog, whatever language argument and upstream
behaviour the second call has: while the cache is fresh the result is
independent of the language parameter. -/
theorem c10_cache_ignores_language (st0 : TocCacheState) (now0 now1 : Nat)
    (q1 q2 lang1 lang2 : String) (lim1 lim2 : Nat)
    (server1 server2 : String → HttpResponse) (body : String)
    (h0 : st0.cachedToc = none)
    (hok : server1 (tocUrl lang1) = HttpResponse.ok body)
    (hfresh : now1 - now0 < TOC_CACHE_DURATION_MS) :
    (searchDatasetsM ((searchDatasetsM st0 now0 q1 lang1 lim1 server1).2)
        now1 q2 lang2 lim2 server2).1
      = .ok (searchDatasets (parseTocBody body) q2 lim2) := by
  have h1 : (searchDatasetsM st0 now0 q1 lang1 lim1 server1).2
      = { cachedToc := some (parseTocBody body), tocCachedAt := now0 } := by
    simp [searchDatasetsM, fetchToc, h0, fetchTocRefresh, hok]
  rw [h1]
  simp [searchDatasetsM, fetchToc, hfresh]

/-- Witness for c10_cache_ignores_language: the second call changes the
language and its upstream even fails, yet it returns the catalog cached by
the first call. -/
theorem c10_cache_ignores_language_witness :
    (searchDatasetsM ((searchDatasetsM { cachedToc := none, tocCachedAt := 0 } 0 "gdp" "en" 20
        (fun _ => HttpResponse.ok "header\nGDP data\tNAMA\tdataset")).2)
        10 "gdp" "de" 20 (fun _ => HttpResponse.failed 500 "err")).1
      = .ok (searchDatasets (parseTocBody "header\nGDP data\tNAMA\tdataset") "gdp" 20) :=
  c10_cache_ignores_language { cachedToc := none, tocCachedAt := 0 } 0 10 "gdp" "gdp" "en" "de"
    20 20 (fun _ => HttpResponse.ok "header\nGDP data\tNAMA\tdataset")
    (fun _ => HttpResponse.failed 500 "err") "header\nGDP data\tNAMA\tdataset"
    rfl rfl (by decide)
